import Mathlib

/-!
Verification of the phonemefix speech-correction pipeline core, shallowly
embedded from `src/main.py`: IPA normalization (`normalize_ipa`),
repeat collapsing (`collapse_repeats`), the phonological rule engine
(`apply_rules` with gliding/stopping, cluster reduction and repeat
collapsing), rule-configuration parsing (pydantic `RuleConfig`) and the
`run_pipeline` orchestration.
-/

set_option autoImplicit false

namespace Phonemefix

/-! ### Character-level utilities

Python string primitives used by `main.py`, embedded over `List Char`:
`str.replace` (replace all non-overlapping occurrences, scanning left to
right), `str.split()` with no arguments (split on whitespace runs,
dropping empty fragments) and `" ".join`. -/

/-- Core of Python `s.replace(pat, rep)` on character lists.  `skip` counts
characters of an already-matched pattern occurrence still to be consumed.
When `pat` is empty the function is the identity (all patterns used by
`main.py` are nonempty, so Python's empty-pattern behavior is irrelevant). -/
def pyRepAux (pat rep : List Char) : List Char → Nat → List Char
  | [], _ => []
  | _ :: cs, skip + 1 => pyRepAux pat rep cs skip
  | c :: cs, 0 =>
    if pat ≠ [] ∧ pat.isPrefixOf (c :: cs) then
      rep ++ pyRepAux pat rep cs (pat.length - 1)
    else
      c :: pyRepAux pat rep cs 0

/-- Python `s.replace(pat, rep)` on character lists. -/
def pyRep (s pat rep : List Char) : List Char := pyRepAux pat rep s 0

/-- Core of Python `s.split()`: `acc` holds the (reversed) characters of the
current in-progress token. -/
def splitWSAux : List Char → List Char → List (List Char)
  | [], acc => if acc = [] then [] else [acc.reverse]
  | c :: cs, acc =>
    if c.isWhitespace then
      if acc = [] then splitWSAux cs [] else acc.reverse :: splitWSAux cs []
    else splitWSAux cs (c :: acc)

/-- Python `s.split()` (no argument): split on whitespace, dropping empty
fragments. -/
def splitWS (s : List Char) : List (List Char) := splitWSAux s []

/-- Python `" ".join(ts)` on character lists. -/
def joinSpace : List (List Char) → List Char
  | [] => []
  | [t] => t
  | t :: ts => t ++ ' ' :: joinSpace ts

/-! ### IPA Normalizer (`normalize_ipa`, main.py lines 30-52) -/

/-- The per-token body of `normalize_ipa`: the fixed, ordered list of
substring replacements from `main.py` (stress marks `ˈ` `ˌ` deleted,
`tʰ`/`t̠` → `t`, `d̠` → `d`, `ɹ̩` → `ɹ`, `l̩` → `l`, combining tilde
deleted), applied in source order. -/
def normTok (p : List Char) : List Char :=
  pyRep (pyRep (pyRep (pyRep (pyRep (pyRep (pyRep (pyRep p
    "ˈ".data "".data)
    "ˌ".data "".data)
    "tʰ".data "t".data)
    "t̠".data "t".data)
    "d̠".data "d".data)
    "ɹ̩".data "ɹ".data)
    "l̩".data "l".data)
    "̃".data "".data

/-- `normalize_ipa` from `main.py`: split on whitespace, normalize each
token, rejoin with single spaces. -/
def normalize_ipa (s : String) : String :=
  String.mk (joinSpace ((splitWS s.data).map normTok))

/-- The characters that occur in the diacritic/stress patterns of
`normTok`'s replacement table: `ˈ` (U+02C8), `ˌ` (U+02CC), `ʰ` (U+02B0),
combining minus below (U+0320), combining vertical line below (U+0329) and
combining tilde (U+0303). -/
def diacriticChars : List Char :=
  ['\u02C8', '\u02CC', '\u02B0', '\u0320', '\u0329', '\u0303']

/-! ### Repeat collapsing (`collapse_repeats`, main.py lines 55-68) -/

/-- Loop body of `collapse_repeats`: `prev` is the last emitted token
(`out[-1]` in the source). -/
def crAux (prev : String) : List String → List String
  | [] => []
  | t :: ts => if t = prev ∧ t ≠ "|" then crAux prev ts else t :: crAux t ts

/-- `collapse_repeats` from `main.py`: drop a token equal to the previously
emitted token unless it is the boundary marker `|`. -/
def collapse_repeats : List String → List String
  | [] => []
  | t :: ts => t :: crAux t ts

/-! ### Symbol classification and rule configuration (main.py lines 23-27,
107-121) -/

/-- The `VOWELS` set of `main.py`. -/
def VOWELS : List String :=
  ["a", "e", "i", "o", "u", "æ", "ʌ", "ɪ", "ʊ", "ə", "ɛ", "ɔ", "ɑ", "ɜ", "ɒ"]

/-- The `NASALS` set of `main.py`. -/
def NASALS : List String := ["n", "m", "ŋ"]

structure GlidingRules where
  w_to_r : Bool := false
  l_to_w : Bool := false
  r_to_w : Bool := false
deriving DecidableEq

structure StoppingRules where
  s_to_t : Bool := false
  z_to_d : Bool := false
deriving DecidableEq

structure RuleConfig where
  gliding : GlidingRules
  stopping : StoppingRules
  cluster_reduction : Bool
deriving DecidableEq

/-! ### Rule Engine (`apply_rules`, main.py lines 167-243) -/

/-- `next_is_vowel` of `main.py`: the lookahead token, when present, is a
member of `VOWELS`. -/
def nextIsVowel : Option String → Bool
  | none => false
  | some q => VOWELS.contains q

/-- The gliding/stopping loop body of `apply_rules` for one token `p` with
lookahead `next`: boundaries pass through; a `w` before a vowel is glided
(`l_to_w` first, else `w_to_r`/`r_to_w`); then the stopping checks apply to
whatever symbol currently occupies the slot. -/
def ruleTok (cfg : RuleConfig) (p : String) (next : Option String) : String :=
  if p = "|" then p
  else
    let nv := nextIsVowel next
    let p1 :=
      if p = "w" then
        if cfg.gliding.l_to_w ∧ nv then "l"
        else if (cfg.gliding.w_to_r ∨ cfg.gliding.r_to_w) ∧ nv then "ɹ"
        else p
      else p
    let p2 := if cfg.stopping.s_to_t ∧ p1 = "t" then "s" else p1
    if cfg.stopping.z_to_d ∧ p2 = "d" then "z" else p2

/-- The first (gliding/stopping) pass of `apply_rules`: each token is
rewritten with one token of lookahead. -/
def rulePass (cfg : RuleConfig) : List String → List String
  | [] => []
  | p :: rest => ruleTok cfg p rest.head? :: rulePass cfg rest

/-- Loop body of the cluster-reduction pass: `last` is the last emitted
token (`corrected[-1]` in the source). -/
def clAux (last : String) : List String → List String
  | [] => []
  | p :: ps =>
    if p = "|" then p :: clAux p ps
    else if p = "p" ∧ last ≠ "s" ∧ last ≠ "|" then "s" :: "p" :: clAux "p" ps
    else p :: clAux p ps

/-- The cluster-reduction pass of `apply_rules` (main.py lines 223-238):
the first token is always emitted unchanged (`not corrected` branch);
afterwards an `s` is inserted before a `p` whose previously emitted token
is neither `s` nor `|`. -/
def clusterPass : List String → List String
  | [] => []
  | p :: ps => p :: clAux p ps

/-- `apply_rules` of `main.py` at the token level: gliding/stopping pass,
then (when enabled) the cluster-reduction pass, then repeat collapsing. -/
def applyRulesToks (cfg : RuleConfig) (toks : List String) : List String :=
  let out := rulePass cfg toks
  let out := if cfg.cluster_reduction then clusterPass out else out
  collapse_repeats out

/-- `raw_ipa.split()` of `apply_rules`, producing string tokens. -/
def tokensOf (s : String) : List String := (splitWS s.data).map String.mk

/-- `" ".join(out)` of `apply_rules`. -/
def joinTokens (ts : List String) : String :=
  String.mk (joinSpace (ts.map String.data))

/-- `apply_rules` from `main.py` on strings. -/
def apply_rules (raw_ipa : String) (rules : RuleConfig) : String :=
  joinTokens (applyRulesToks rules (tokensOf raw_ipa))

/-! ### Spec-side cluster-reduction description (for claim C2)

Written from the spec's words, to be compared with the source-derived
`clusterPass`: "whenever a token equals `p` and the immediately preceding
emitted token is neither `s` nor a boundary marker, insert an `s` token
immediately before it"; since every step of the pass ends by emitting the
current input token, the preceding emitted token is the preceding input
token of the pass. -/
def clusterSpecAux (prev : String) : List String → List String
  | [] => []
  | t :: ts =>
    (if t = "p" ∧ prev ≠ "s" ∧ prev ≠ "|" then ["s", t] else [t])
      ++ clusterSpecAux t ts

/-- Spec-side cluster reduction: the first token has no predecessor, so it
is emitted unchanged. -/
def clusterSpec : List String → List String
  | [] => []
  | t :: ts => t :: clusterSpecAux t ts

/-! ### Rule-configuration parsing (main.py lines 270-277)

`run_pipeline` does `rules_dict = json.loads(rules)` followed by
`RuleConfig(**rules_dict)`.  The JSON value and pydantic v1 validation of
`BaseModel(**dict)` are embedded here with pydantic's default settings, as
used by the source: declared fields are validated, a declared field with a
default (`= False` on every gliding/stopping sub-field) uses its default
when the key is absent, a declared field without a default (`gliding`,
`stopping`, `cluster_reduction`) raises a validation error when absent, and
undeclared (unknown) keys are silently ignored (`Extra.ignore`).  Only the
JSON shapes relevant to the claims are distinguished; pydantic's numeric
and string boolean coercions are not modelled (`other` covers those
values and they are never used by the claims). -/

inductive Json where
  | bool : Bool → Json
  | obj : List (String × Json) → Json
  | other : Json

/-- First-match key lookup in a JSON object's field list. -/
def lookupJ (fields : List (String × Json)) (k : String) : Option Json :=
  match fields with
  | [] => none
  | (k', v) :: rest => if k' = k then some v else lookupJ rest k

/-- Validation of a boolean field value. -/
def parseBool (j : Json) : Except String Bool :=
  match j with
  | .bool b => .ok b
  | _ => .error "value is not a valid boolean"

/-- Validation of the nested `GlidingRules` model: every sub-field has
default `False`, so a missing key is silently defaulted. -/
def parseGliding (j : Json) : Except String GlidingRules :=
  match j with
  | .obj fs => do
    let w ← (lookupJ fs "w_to_r").elim (.ok false) parseBool
    let l ← (lookupJ fs "l_to_w").elim (.ok false) parseBool
    let r ← (lookupJ fs "r_to_w").elim (.ok false) parseBool
    .ok ⟨w, l, r⟩
  | _ => .error "value is not a valid dict"

/-- Validation of the nested `StoppingRules` model. -/
def parseStopping (j : Json) : Except String StoppingRules :=
  match j with
  | .obj fs => do
    let s ← (lookupJ fs "s_to_t").elim (.ok false) parseBool
    let z ← (lookupJ fs "z_to_d").elim (.ok false) parseBool
    .ok ⟨s, z⟩
  | _ => .error "value is not a valid dict"

/-- Validation of the top-level `RuleConfig` model: its three fields have
no defaults, so each must be present; unknown keys are ignored. -/
def parseRuleConfig (j : Json) : Except String RuleConfig :=
  match j with
  | .obj fs => do
    let g ← (lookupJ fs "gliding").elim (.error "field required: gliding")
      parseGliding
    let s ← (lookupJ fs "stopping").elim (.error "field required: stopping")
      parseStopping
    let c ← (lookupJ fs "cluster_reduction").elim
      (.error "field required: cluster_reduction") parseBool
    .ok ⟨g, s, c⟩
  | _ => .error "value is not a valid dict"

/-! ### Pipeline orchestration (`run_pipeline`, main.py lines 270-301)

The two external collaborators are parameters: the acoustic transcription
result (`transcribe_to_ipa`) is taken as an input string, and the T5
decoder (`decode_ipa_to_text`) as a function argument. -/

structure PipelineResponse where
  raw_ipa : String
  corrected_ipa : String
  final_text : String
  rules_applied : RuleConfig
  wav2vec2_model_used : Option String := none
  t5_model_used : Option String := none
deriving DecidableEq

def WAV2VEC2_ID : String := "facebook/wav2vec2-lv-60-espeak-cv-ft"

def IPA2TEXT_ID : String := "zanegraper/t5-small-ipa-phoneme-to-text"

/-- The body of the `/pipeline` endpoint after transcription: normalize the
transcription, apply the rules, decode, and assemble the response exactly
as the source does (in particular, the `raw_ipa` response field is
assigned `normalized_ipa`). -/
def run_pipeline (transcription : String) (rule_cfg : RuleConfig)
    (decode_ipa_to_text : String → String) : PipelineResponse :=
  let raw_ipa := transcription
  let normalized_ipa := normalize_ipa raw_ipa
  let corrected_ipa := apply_rules normalized_ipa rule_cfg
  let final_text := decode_ipa_to_text corrected_ipa
  { raw_ipa := normalized_ipa
    corrected_ipa := corrected_ipa
    final_text := final_text
    rules_applied := rule_cfg
    wav2vec2_model_used := some WAV2VEC2_ID
    t5_model_used := some IPA2TEXT_ID }

/-! ## Lemmas about repeat collapsing and cluster reduction -/

theorem crAux_crAux (l : List String) :
    ∀ prev, crAux prev (crAux prev l) = crAux prev l := by
  induction l with
  | nil => intro prev; rfl
  | cons t ts ih =>
    intro prev
    by_cases h : t = prev ∧ t ≠ "|"
    · simp only [crAux, if_pos h, ih]
    · simp only [crAux, if_neg h, ih]

theorem clAux_eq_spec (l : List String) :
    ∀ prev, clAux prev l = clusterSpecAux prev l := by
  induction l with
  | nil => intro prev; rfl
  | cons p ps ih =>
    intro prev
    simp only [clAux, clusterSpecAux]
    by_cases hb : p = "|"
    · have hc : ¬(p = "p" ∧ prev ≠ "s" ∧ prev ≠ "|") := by
        rintro ⟨h1, -, -⟩
        rw [hb] at h1
        exact absurd h1 (by decide)
      rw [if_pos hb, if_neg hc, ih]
      rfl
    · by_cases hc : p = "p" ∧ prev ≠ "s" ∧ prev ≠ "|"
      · have h1 := hc.1
        subst h1
        rw [if_neg hb, if_pos hc, if_pos hc, ih]
        rfl
      · rw [if_neg hb, if_neg hc, if_neg hc, ih]
        rfl

theorem clusterPass_eq_spec (l : List String) : clusterPass l = clusterSpec l := by
  cases l with
  | nil => rfl
  | cons t ts => simp only [clusterPass, clusterSpec, clAux_eq_spec]

/-- C8: repeat-collapsing is idempotent: for every token sequence `seq`,
`collapse_repeats (collapse_repeats seq) = collapse_repeats seq`. -/
theorem c8_collapse_idempotent (seq : List String) :
    collapse_repeats (collapse_repeats seq) = collapse_repeats seq := by
  cases seq with
  | nil => rfl
  | cons t ts => simp only [collapse_repeats, crAux_crAux]

/-- C2: the cluster-reduction pass runs exactly when the
`cluster_reduction` switch is enabled, and then it rewrites the
gliding/stopping-corrected sequence as the spec describes (`clusterSpec`:
an `s` is inserted immediately before every `p` whose immediately
preceding emitted token is neither `s` nor the boundary marker `|`); in
particular `[ə, p, l]` with `cluster_reduction` enabled yields
`[ə, s, p, l]`. -/
theorem c2_cluster_reduction (cfg : RuleConfig) (toks : List String) :
    applyRulesToks cfg toks =
      collapse_repeats
        (if cfg.cluster_reduction then clusterSpec (rulePass cfg toks)
         else rulePass cfg toks) ∧
    apply_rules "ə p l" ⟨⟨false, false, false⟩, ⟨false, false⟩, true⟩ = "ə s p l" := by
  constructor
  · unfold applyRulesToks
    cases h : cfg.cluster_reduction <;> simp [h, clusterPass_eq_spec]
  · decide

/-- C10: when `cluster_reduction` is enabled and `p` is the first token of
the gliding/stopping-corrected sequence, no `s` is inserted before it: the
cluster pass's output still starts with that `p`, and a lone `p` input
passes through the whole rule engine unchanged under every configuration. -/
theorem c10_initial_p (ps : List String) (cfg : RuleConfig) :
    (clusterPass ("p" :: ps)).head? = some "p" ∧ apply_rules "p" cfg = "p" := by
  refine ⟨rfl, ?_⟩
  obtain ⟨⟨a, b, c⟩, ⟨d, e⟩, f⟩ := cfg
  cases a <;> cases b <;> cases c <;> cases d <;> cases e <;> cases f <;> decide

/-- C9: the rule engine handles the empty sequence and one-token sequences
without error: the empty sequence maps to the empty sequence, a one-token
sequence is processed with an absent lookahead (`none`), and since an
absent lookahead is not a vowel, gliding never fires on the final token
(`w` stays `w`). -/
theorem c9_short_inputs (cfg : RuleConfig) (t : String) :
    applyRulesToks cfg [] = [] ∧ apply_rules "" cfg = "" ∧
    rulePass cfg [t] = [ruleTok cfg t none] ∧
    ruleTok cfg "w" none = "w" ∧ applyRulesToks cfg ["w"] = ["w"] := by
  obtain ⟨⟨a, b, c⟩, ⟨d, e⟩, f⟩ := cfg
  refine ⟨?_, ?_, rfl, ?_, ?_⟩
  · cases f <;> rfl
  · cases f <;> rfl
  · cases a <;> cases b <;> cases c <;> cases d <;> cases e <;> cases f <;> decide
  · cases a <;> cases b <;> cases c <;> cases d <;> cases e <;> cases f <;> decide

/-! ## Boundary-preservation lemmas -/

theorem ruleTok_eq_boundary (cfg : RuleConfig) (p : String) (n : Option String) :
    ruleTok cfg p n = "|" ↔ p = "|" := by
  by_cases hp : p = "|"
  · simp [ruleTok, hp]
  · simp only [ruleTok, if_neg hp]
    split_ifs <;>
      first
        | exact Iff.rfl
        | exact iff_of_false (by decide) hp

theorem filter_crAux (l : List String) :
    ∀ prev, (crAux prev l).filter (fun t => t == "|") =
      l.filter (fun t => t == "|") := by
  induction l with
  | nil => intro prev; rfl
  | cons t ts ih =>
    intro prev
    by_cases h : t = prev ∧ t ≠ "|"
    · have hb : (t == "|") = false := by simp [h.2]
      simp only [crAux, if_pos h, ih, List.filter_cons, hb]
      simp
    · simp only [crAux, if_neg h, List.filter_cons, ih]

theorem filter_collapse (l : List String) :
    (collapse_repeats l).filter (fun t => t == "|") =
      l.filter (fun t => t == "|") := by
  cases l with
  | nil => rfl
  | cons t ts => simp only [collapse_repeats, List.filter_cons, filter_crAux]

theorem filter_clAux (l : List String) :
    ∀ last, (clAux last l).filter (fun t => t == "|") =
      l.filter (fun t => t == "|") := by
  induction l with
  | nil => intro last; rfl
  | cons p ps ih =>
    intro last
    by_cases hb : p = "|"
    · simp only [clAux, if_pos hb, List.filter_cons, ih]
    · by_cases hc : p = "p" ∧ last ≠ "s" ∧ last ≠ "|"
      · have h2 : ¬last = "s" := hc.2.1
        have h3 : ¬last = "|" := hc.2.2
        have h1 := hc.1
        subst h1
        have hs : (("s" : String) == "|") = false := by decide
        have hp2 : (("p" : String) == "|") = false := by decide
        simp [clAux, hb, h2, h3, List.filter_cons, hs, hp2, ih]
      · simp only [clAux, if_neg hb, if_neg hc, List.filter_cons, ih]

theorem filter_cluster (l : List String) :
    (clusterPass l).filter (fun t => t == "|") =
      l.filter (fun t => t == "|") := by
  cases l with
  | nil => rfl
  | cons t ts => simp only [clusterPass, List.filter_cons, filter_clAux]

theorem filter_rulePass (cfg : RuleConfig) (toks : List String) :
    (rulePass cfg toks).filter (fun t => t == "|") =
      toks.filter (fun t => t == "|") := by
  induction toks with
  | nil => rfl
  | cons p rest ih =>
    by_cases hp : p = "|"
    · subst hp
      have hr : ruleTok cfg "|" rest.head? = "|" :=
        (ruleTok_eq_boundary _ _ _).mpr rfl
      simp [rulePass, List.filter_cons, hr, ih]
    · have hr : ruleTok cfg p rest.head? ≠ "|" :=
        fun h => hp ((ruleTok_eq_boundary _ _ _).mp h)
      have h1 : (ruleTok cfg p rest.head? == "|") = false := by simp [hr]
      have h2 : (p == "|") = false := by simp [hp]
      simp [rulePass, List.filter_cons, h1, h2, ih]

/-- C3: boundary preservation: every phase of the rule engine
(gliding/stopping pass, cluster-reduction pass, repeat-collapsing pass)
and the whole engine leave the subsequence of boundary markers `|`
unchanged — in particular their count and relative order. -/
theorem c3_boundary_preservation (cfg : RuleConfig) (toks l : List String) :
    (rulePass cfg toks).filter (fun t => t == "|") =
      toks.filter (fun t => t == "|") ∧
    (clusterPass l).filter (fun t => t == "|") = l.filter (fun t => t == "|") ∧
    (collapse_repeats l).filter (fun t => t == "|") =
      l.filter (fun t => t == "|") ∧
    (applyRulesToks cfg toks).filter (fun t => t == "|") =
      toks.filter (fun t => t == "|") ∧
    (applyRulesToks cfg toks).count "|" = toks.count "|" := by
  have hall : (applyRulesToks cfg toks).filter (fun t => t == "|") =
      toks.filter (fun t => t == "|") := by
    unfold applyRulesToks
    cases h : cfg.cluster_reduction <;>
      simp [h, filter_collapse, filter_cluster, filter_rulePass]
  refine ⟨filter_rulePass cfg toks, filter_cluster l, filter_collapse l, hall, ?_⟩
  have hc : ∀ m : List String, m.count "|" =
      (m.filter (fun t => t == "|")).length := by
    intro m
    rw [List.count, List.countP_eq_length_filter]
  rw [hc, hc, hall]

/-! ## Per-token decision table (claim C1) -/

theorem rulePass_get (cfg : RuleConfig) :
    ∀ (toks : List String) (i : Nat),
      (rulePass cfg toks).get? i =
        (toks.get? i).map (fun p => ruleTok cfg p (toks.get? (i + 1))) := by
  intro toks
  induction toks with
  | nil => intro i; rfl
  | cons p rest ih =>
    intro i
    cases i with
    | zero =>
      have hhead : rest.head? = rest.get? 0 := by cases rest <;> rfl
      simp [rulePass, hhead]
    | succ i =>
      simp only [rulePass, List.get?_cons_succ]
      exact ih i

theorem ruleTok_spec (cfg : RuleConfig) (p : String) (n : Option String)
    (hp : p ≠ "|") :
    ruleTok cfg p n =
      (let nv := nextIsVowel n
       let g := if p = "w" ∧ nv then
           if cfg.gliding.l_to_w then "l"
           else if cfg.gliding.w_to_r ∨ cfg.gliding.r_to_w then "ɹ"
           else p
         else p
       let s1 := if g = "t" ∧ cfg.stopping.s_to_t then "s" else g
       if s1 = "d" ∧ cfg.stopping.z_to_d then "z" else s1) := by
  obtain ⟨⟨a, b, c⟩, ⟨d, e⟩, f⟩ := cfg
  simp only [ruleTok, if_neg hp]
  cases hnv : nextIsVowel n <;>
    by_cases hw : p = "w" <;>
    cases a <;> cases b <;> cases c <;> cases d <;> cases e <;>
    simp [hw, hnv]

/-- C1: per-token decision table of the gliding/stopping pass: a non-boundary
token `p` at position `i` is rewritten, using one token of lookahead, to:
`l` when `p = w`, the lookahead is a vowel and `l_to_w` is enabled; else `ɹ`
when `p = w`, the lookahead is a vowel and `w_to_r` or `r_to_w` is enabled
(`l_to_w` takes priority); independently the stopping checks then apply to
the current slot: a current `t` becomes `s` under `s_to_t` and a current `d`
becomes `z` under `z_to_d`. -/
theorem c1_rule_table (cfg : RuleConfig) (toks : List String) (i : Nat)
    (p : String) (hp : toks.get? i = some p) (hb : p ≠ "|") :
    (rulePass cfg toks).get? i =
      some (let nv := nextIsVowel (toks.get? (i + 1))
            let g := if p = "w" ∧ nv then
                if cfg.gliding.l_to_w then "l"
                else if cfg.gliding.w_to_r ∨ cfg.gliding.r_to_w then "ɹ"
                else p
              else p
            let s1 := if g = "t" ∧ cfg.stopping.s_to_t then "s" else g
            if s1 = "d" ∧ cfg.stopping.z_to_d then "z" else s1) := by
  rw [rulePass_get, hp, Option.map_some', ruleTok_spec cfg p _ hb]

/-- Witness for C1 at `toks = [w, æ]`, `i = 0`, with only `l_to_w` enabled:
the `w` with vowel lookahead `æ` is rewritten to `l`. -/
theorem c1_rule_table_witness :
    (["w", "æ"] : List String).get? 0 = some "w" ∧ ("w" : String) ≠ "|" ∧
    (rulePass ⟨⟨false, true, false⟩, ⟨false, false⟩, false⟩ ["w", "æ"]).get? 0 =
      some "l" :=
  ⟨rfl, by decide,
    (c1_rule_table ⟨⟨false, true, false⟩, ⟨false, false⟩, false⟩ ["w", "æ"] 0 "w"
      rfl (by decide)).trans (by decide)⟩

/-! ## Normalizer lemmas (claims C6, C7) -/

theorem pyRepAux_pred (P : Char → Prop) (pat rep : List Char)
    (hr : ∀ c ∈ rep, P c) :
    ∀ (s : List Char), (∀ c ∈ s, P c) →
      ∀ (skip : Nat), ∀ c ∈ pyRepAux pat rep s skip, P c := by
  intro s
  induction s with
  | nil => intro _ skip c hc; simp [pyRepAux] at hc
  | cons a cs ih =>
    intro hs skip c hc
    have hcs : ∀ c ∈ cs, P c := fun c h => hs c (List.mem_cons_of_mem _ h)
    cases skip with
    | succ k => exact ih hcs k c hc
    | zero =>
      simp only [pyRepAux] at hc
      by_cases h : pat ≠ [] ∧ pat.isPrefixOf (a :: cs)
      · rw [if_pos h] at hc
        rcases List.mem_append.mp hc with h1 | h1
        · exact hr c h1
        · exact ih hcs _ c h1
      · rw [if_neg h] at hc
        rcases List.mem_cons.mp hc with h1 | h1
        · exact h1 ▸ hs a (List.mem_cons_self a cs)
        · exact ih hcs 0 c h1

theorem pyRep_pred (P : Char → Prop) (pat rep : List Char)
    (hr : ∀ c ∈ rep, P c) (s : List Char) (hs : ∀ c ∈ s, P c) :
    ∀ c ∈ pyRep s pat rep, P c :=
  pyRepAux_pred P pat rep hr s hs 0

theorem mem_of_isPrefixOf :
    ∀ (pat s : List Char), pat.isPrefixOf s = true → ∀ x ∈ pat, x ∈ s := by
  intro pat
  induction pat with
  | nil => intro s _ x hx; simp at hx
  | cons a as ih =>
    intro s hpre x hx
    cases s with
    | nil => simp [List.isPrefixOf] at hpre
    | cons b bs =>
      rw [List.isPrefixOf, Bool.and_eq_true, beq_iff_eq] at hpre
      rcases List.mem_cons.mp hx with h | h
      · rw [h, hpre.1]
        exact List.mem_cons_self b bs
      · exact List.mem_cons_of_mem _ (ih bs hpre.2 x h)

theorem pyRep_id (pat rep : List Char) (x : Char) (hx : x ∈ pat) :
    ∀ (s : List Char), x ∉ s → pyRep s pat rep = s := by
  intro s
  induction s with
  | nil => intro _; rfl
  | cons a cs ih =>
    intro hns
    have hnp : ¬(pat ≠ [] ∧ pat.isPrefixOf (a :: cs)) := by
      rintro ⟨-, hpre⟩
      exact hns (mem_of_isPrefixOf pat (a :: cs) hpre x hx)
    show pyRepAux pat rep (a :: cs) 0 = a :: cs
    simp only [pyRepAux, if_neg hnp]
    exact congrArg (List.cons a) (ih fun h => hns (List.mem_cons_of_mem _ h))

theorem splitWSAux_tokens :
    ∀ (s acc : List Char), (∀ c ∈ acc, c.isWhitespace = false) →
      ∀ t ∈ splitWSAux s acc, t ≠ [] ∧ ∀ c ∈ t, c.isWhitespace = false := by
  intro s
  induction s with
  | nil =>
    intro acc hacc t ht
    by_cases h : acc = []
    · simp [splitWSAux, h] at ht
    · simp only [splitWSAux, if_neg h] at ht
      rw [List.mem_singleton.mp ht]
      refine ⟨by simpa using h, ?_⟩
      intro c hc
      exact hacc c (List.mem_reverse.mp hc)
  | cons a cs ih =>
    intro acc hacc t ht
    cases hwa : a.isWhitespace with
    | true =>
      simp only [splitWSAux, hwa, if_pos] at ht
      by_cases h : acc = []
      · rw [if_pos h] at ht
        exact ih [] (fun c hc => absurd hc (List.not_mem_nil c)) t ht
      · rw [if_neg h] at ht
        rcases List.mem_cons.mp ht with h1 | h1
        · rw [h1]
          refine ⟨by simpa using h, ?_⟩
          intro c hc
          exact hacc c (List.mem_reverse.mp hc)
        · exact ih [] (fun c hc => absurd hc (List.not_mem_nil c)) t h1
    | false =>
      simp only [splitWSAux, hwa] at ht
      refine ih (a :: acc) ?_ t ht
      intro c hc
      rcases List.mem_cons.mp hc with h1 | h1
      · rw [h1]; exact hwa
      · exact hacc c h1

theorem splitWSAux_append :
    ∀ (t : List Char), (∀ c ∈ t, c.isWhitespace = false) →
      ∀ (cs acc : List Char),
        splitWSAux (t ++ cs) acc = splitWSAux cs (t.reverse ++ acc) := by
  intro t
  induction t with
  | nil => intro _ cs acc; simp
  | cons a t' ih =>
    intro ht cs acc
    have ha : a.isWhitespace = false := ht a (List.mem_cons_self a t')
    have ht' : ∀ c ∈ t', c.isWhitespace = false :=
      fun c h => ht c (List.mem_cons_of_mem _ h)
    simp only [List.cons_append, splitWSAux, ha, List.append_eq,
      Bool.false_eq_true, if_false]
    rw [ih ht' cs (a :: acc)]
    simp [List.reverse_cons, List.append_assoc]

theorem splitWS_joinSpace :
    ∀ (ts : List (List Char)), (∀ t ∈ ts, ∀ c ∈ t, c.isWhitespace = false) →
      splitWS (joinSpace ts) = ts.filter (fun t => !t.isEmpty) := by
  intro ts
  induction ts with
  | nil => intro _; rfl
  | cons t ts' ih =>
    intro h
    have ht : ∀ c ∈ t, c.isWhitespace = false := h t (List.mem_cons_self _ _)
    have hts' : ∀ u ∈ ts', ∀ c ∈ u, c.isWhitespace = false :=
      fun u hu => h u (List.mem_cons_of_mem _ hu)
    cases ts' with
    | nil =>
      cases t with
      | nil => rfl
      | cons x xs =>
        show splitWSAux (x :: xs) [] = _
        have h1 := splitWSAux_append (x :: xs) ht [] []
        rw [List.append_nil, List.append_nil] at h1
        rw [h1]
        have h2 : (x :: xs).reverse ≠ [] := by simp
        simp only [splitWSAux, if_neg h2, List.reverse_reverse]
        rfl
    | cons t2 ts'' =>
      show splitWSAux (t ++ ' ' :: joinSpace (t2 :: ts'')) [] = _
      rw [splitWSAux_append t ht (' ' :: joinSpace (t2 :: ts'')) [],
        List.append_nil]
      simp only [splitWSAux]
      rw [if_pos (show (' ' : Char).isWhitespace = true from rfl)]
      have h2 : splitWSAux (joinSpace (t2 :: ts'')) [] =
          List.filter (fun u => !u.isEmpty) (t2 :: ts'') := ih hts'
      by_cases htn : t = []
      · rw [if_pos (by simp [htn]), h2, htn]
        simp [List.filter_cons]
      · rw [if_neg (by simpa using htn), List.reverse_reverse, h2]
        have hft : (!t.isEmpty) = true := by
          cases t with
          | nil => exact absurd rfl htn
          | cons _ _ => rfl
        simp [List.filter_cons, hft]

theorem normTok_pred (t : List Char) (ht : ∀ c ∈ t, c.isWhitespace = false) :
    ∀ c ∈ normTok t, c.isWhitespace = false := by
  unfold normTok
  have h0 : ∀ c ∈ ("" : String).data, c.isWhitespace = false := by decide
  have h1 : ∀ c ∈ ("t" : String).data, c.isWhitespace = false := by decide
  have h2 : ∀ c ∈ ("d" : String).data, c.isWhitespace = false := by decide
  have h3 : ∀ c ∈ ("ɹ" : String).data, c.isWhitespace = false := by decide
  have h4 : ∀ c ∈ ("l" : String).data, c.isWhitespace = false := by decide
  exact pyRep_pred _ _ _ h0 _ (pyRep_pred _ _ _ h4 _ (pyRep_pred _ _ _ h3 _
    (pyRep_pred _ _ _ h2 _ (pyRep_pred _ _ _ h1 _ (pyRep_pred _ _ _ h1 _
      (pyRep_pred _ _ _ h0 _ (pyRep_pred _ _ _ h0 _ ht)))))))

theorem normTok_id (t : List Char) (ht : ∀ c ∈ t, c ∉ diacriticChars) :
    normTok t = t := by
  have n1 : ('ˈ' : Char) ∉ t := fun h => ht _ h (by decide)
  have n2 : ('ˌ' : Char) ∉ t := fun h => ht _ h (by decide)
  have n3 : ('ʰ' : Char) ∉ t := fun h => ht _ h (by decide)
  have n4 : ('̠' : Char) ∉ t := fun h => ht _ h (by decide)
  have n5 : ('̩' : Char) ∉ t := fun h => ht _ h (by decide)
  have n6 : ('̃' : Char) ∉ t := fun h => ht _ h (by decide)
  unfold normTok
  rw [pyRep_id _ _ 'ˈ' (by decide) t n1,
    pyRep_id _ _ 'ˌ' (by decide) t n2,
    pyRep_id _ _ 'ʰ' (by decide) t n3,
    pyRep_id _ _ '̠' (by decide) t n4,
    pyRep_id _ _ '̠' (by decide) t n4,
    pyRep_id _ _ '̩' (by decide) t n5,
    pyRep_id _ _ '̩' (by decide) t n5,
    pyRep_id _ _ '̃' (by decide) t n6]

theorem normTok_tokens_ws (s : String) :
    ∀ t ∈ (splitWS s.data).map normTok, ∀ c ∈ t, c.isWhitespace = false := by
  intro t ht
  rcases List.mem_map.mp ht with ⟨u, hu, rfl⟩
  exact normTok_pred u
    (splitWSAux_tokens s.data [] (fun c hc => absurd hc (List.not_mem_nil c))
      u hu).2

theorem normalize_split (s : String)
    (h : ∀ t ∈ (splitWS s.data).map normTok, t ≠ []) :
    splitWS (normalize_ipa s).data = (splitWS s.data).map normTok := by
  have hmk : (normalize_ipa s).data = joinSpace ((splitWS s.data).map normTok) :=
    rfl
  rw [hmk, splitWS_joinSpace _ (normTok_tokens_ws s)]
  apply List.filter_eq_self.mpr
  intro t ht
  cases htv : t with
  | nil => exact absurd htv (h t ht)
  | cons _ _ => rfl

/-- C6 counterexample: on the one-token input `ˈ` (a lone stress mark) the
normalizer deletes the whole token, so the output has 0 whitespace-delimited
tokens while the input has 1. -/
theorem c6_counterexample :
    ¬ ((splitWS (normalize_ipa "ˈ").data).length =
        (splitWS ("ˈ" : String).data).length) := by decide

/-- C6 (amended): the normalizer maps each input token to exactly one
output token, so the output token count equals the input token count
whenever no input token normalizes to the empty string. -/
theorem c6_token_count (s : String)
    (h : ∀ t ∈ (splitWS s.data).map normTok, t ≠ []) :
    (splitWS (normalize_ipa s).data).length = (splitWS s.data).length := by
  rw [normalize_split s h, List.length_map]

/-- Witness for the amended C6 at the input `tʰ ɪ n`. -/
theorem c6_token_count_witness :
    (∀ t ∈ (splitWS ("tʰ ɪ n" : String).data).map normTok, t ≠ []) ∧
    (splitWS (normalize_ipa "tʰ ɪ n").data).length =
      (splitWS ("tʰ ɪ n" : String).data).length :=
  ⟨by decide, c6_token_count "tʰ ɪ n" (by decide)⟩

/-- C7 counterexample: normalization is not idempotent: on `tʰʰ` the first
pass rewrites `tʰʰ` to `tʰ` (the replacement of `tʰ` by `t` re-creates a
`tʰ` occurrence), and a second pass rewrites `tʰ` to `t`. -/
theorem c7_counterexample :
    normalize_ipa (normalize_ipa "tʰʰ") ≠ normalize_ipa "tʰʰ" := by decide

/-- C7 (amended): normalization is idempotent on inputs where no token
normalizes to the empty string and no diacritic/stress character survives
in a normalized token; in general a replacement can re-create a pattern
occurrence (see the counterexample), so idempotence fails. -/
theorem c7_idempotent_cond (s : String)
    (h1 : ∀ t ∈ (splitWS s.data).map normTok, t ≠ [])
    (h2 : ∀ t ∈ (splitWS s.data).map normTok, ∀ c ∈ t, c ∉ diacriticChars) :
    normalize_ipa (normalize_ipa s) = normalize_ipa s := by
  have hmap : ∀ t ∈ (splitWS s.data).map normTok, normTok t = t :=
    fun t ht => normTok_id t (h2 t ht)
  have hid : ((splitWS s.data).map normTok).map normTok =
      (splitWS s.data).map normTok :=
    (List.map_congr_left hmap).trans (List.map_id _)
  show String.mk (joinSpace ((splitWS (normalize_ipa s).data).map normTok)) =
    normalize_ipa s
  rw [normalize_split s h1, hid]
  rfl

/-- Witness for the amended C7 at the input `tʰ ɪ n`. -/
theorem c7_idempotent_cond_witness :
    (∀ t ∈ (splitWS ("tʰ ɪ n" : String).data).map normTok, t ≠ []) ∧
    (∀ t ∈ (splitWS ("tʰ ɪ n" : String).data).map normTok,
      ∀ c ∈ t, c ∉ diacriticChars) ∧
    normalize_ipa (normalize_ipa "tʰ ɪ n") = normalize_ipa "tʰ ɪ n" :=
  ⟨by decide, by decide, c7_idempotent_cond "tʰ ɪ n" (by decide) (by decide)⟩

/-! ## Rule-configuration validation (claim C4) -/

theorem lookupJ_append (fs : List (String × Json)) (k key : String) (v : Json)
    (hk : k ≠ key) : lookupJ (fs ++ [(k, v)]) key = lookupJ fs key := by
  induction fs with
  | nil =>
    simp only [List.nil_append, lookupJ]
    rw [if_neg hk]
  | cons p rest ih =>
    obtain ⟨k', v'⟩ := p
    simp only [List.cons_append, lookupJ, List.append_eq]
    by_cases h : k' = key
    · rw [if_pos h, if_pos h]
    · rw [if_neg h, if_neg h, ih]

/-- C4 counterexample: a serialized configuration that contains the unknown
key `bogus` and is missing every gliding/stopping sub-key is accepted (with
the sub-rules silently defaulted to `false`), not rejected. -/
theorem c4_counterexample :
    parseRuleConfig (Json.obj [("gliding", Json.obj []),
      ("stopping", Json.obj []), ("cluster_reduction", Json.bool true),
      ("bogus", Json.bool true)]) =
      Except.ok ⟨⟨false, false, false⟩, ⟨false, false⟩, true⟩ := rfl

/-- C4 (amended): validation rejects a configuration missing any of the
top-level keys `gliding`, `stopping`, `cluster_reduction`, but an unknown
key is silently ignored (it does not change the parse result) and missing
gliding/stopping sub-keys silently default to `false`. -/
theorem c4_validation (fs : List (String × Json)) (k : String) (v : Json)
    (hmiss : lookupJ fs "gliding" = none ∨ lookupJ fs "stopping" = none ∨
      lookupJ fs "cluster_reduction" = none)
    (hk1 : k ≠ "gliding") (hk2 : k ≠ "stopping")
    (hk3 : k ≠ "cluster_reduction") :
    (∃ e, parseRuleConfig (Json.obj fs) = Except.error e) ∧
    parseRuleConfig (Json.obj (fs ++ [(k, v)])) =
      parseRuleConfig (Json.obj fs) ∧
    parseGliding (Json.obj []) = Except.ok ⟨false, false, false⟩ ∧
    parseStopping (Json.obj []) = Except.ok ⟨false, false⟩ := by
  refine ⟨?_, ?_, rfl, rfl⟩
  · rcases hmiss with h | h | h
    · exact ⟨_, by simp only [parseRuleConfig]; rw [h]; rfl⟩
    · cases hg : lookupJ fs "gliding" with
      | none => exact ⟨_, by simp only [parseRuleConfig]; rw [hg]; rfl⟩
      | some g =>
        cases hpg : parseGliding g with
        | error e =>
          exact ⟨e, by
            simp only [parseRuleConfig]
            rw [hg]
            simp only [Option.elim]
            rw [hpg]
            rfl⟩
        | ok g1 =>
          exact ⟨_, by
            simp only [parseRuleConfig]
            rw [hg, h]
            simp only [Option.elim]
            rw [hpg]
            rfl⟩
    · cases hg : lookupJ fs "gliding" with
      | none => exact ⟨_, by simp only [parseRuleConfig]; rw [hg]; rfl⟩
      | some g =>
        cases hpg : parseGliding g with
        | error e =>
          exact ⟨e, by
            simp only [parseRuleConfig]
            rw [hg]
            simp only [Option.elim]
            rw [hpg]
            rfl⟩
        | ok g1 =>
          cases hs : lookupJ fs "stopping" with
          | none =>
            exact ⟨_, by
              simp only [parseRuleConfig]
              rw [hg, hs]
              simp only [Option.elim]
              rw [hpg]
              rfl⟩
          | some s2 =>
            cases hps : parseStopping s2 with
            | error e =>
              exact ⟨e, by
                simp only [parseRuleConfig]
                rw [hg, hs]
                simp only [Option.elim]
                rw [hpg, hps]
                rfl⟩
            | ok s3 =>
              exact ⟨_, by
                simp only [parseRuleConfig]
                rw [hg, hs, h]
                simp only [Option.elim]
                rw [hpg, hps]
                rfl⟩
  · simp only [parseRuleConfig]
    rw [lookupJ_append fs k "gliding" v hk1,
      lookupJ_append fs k "stopping" v hk2,
      lookupJ_append fs k "cluster_reduction" v hk3]

/-- Witness for the amended C4: a configuration missing `gliding` (with
only a `stopping` key) is rejected, and appending the unknown key `bogus`
never changes a parse result. -/
theorem c4_validation_witness :
    (lookupJ [("stopping", Json.obj [])] "gliding" = none ∨
      lookupJ [("stopping", Json.obj [])] "stopping" = none ∨
      lookupJ [("stopping", Json.obj [])] "cluster_reduction" = none) ∧
    ("bogus" : String) ≠ "gliding" ∧ ("bogus" : String) ≠ "stopping" ∧
    ("bogus" : String) ≠ "cluster_reduction" ∧
    ((∃ e, parseRuleConfig (Json.obj [("stopping", Json.obj [])]) =
        Except.error e) ∧
      parseRuleConfig (Json.obj ([("stopping", Json.obj [])] ++
        [("bogus", Json.bool true)])) =
        parseRuleConfig (Json.obj [("stopping", Json.obj [])]) ∧
      parseGliding (Json.obj []) = Except.ok ⟨false, false, false⟩ ∧
      parseStopping (Json.obj []) = Except.ok ⟨false, false⟩) :=
  ⟨Or.inl rfl, by decide, by decide, by decide,
    c4_validation [("stopping", Json.obj [])] "bogus" (Json.bool true)
      (Or.inl rfl) (by decide) (by decide) (by decide)⟩

/-! ## Pipeline result fields (claim C5) -/

/-- C5 counterexample: when the acoustic transcription is `tʰ ɪ n`, the
`raw_ipa` field of the response is the normalized string `t ɪ n`, not the
pre-normalization transcription `tʰ ɪ n`. -/
theorem c5_counterexample :
    (run_pipeline "tʰ ɪ n" ⟨⟨false, false, false⟩, ⟨false, false⟩, false⟩
      (fun s => s)).raw_ipa = "t ɪ n" ∧
    (run_pipeline "tʰ ɪ n" ⟨⟨false, false, false⟩, ⟨false, false⟩, false⟩
      (fun s => s)).raw_ipa ≠ "tʰ ɪ n" := by
  constructor <;> decide

/-- C5 (amended): the `raw_ipa` field of the pipeline response holds the
normalized transcription (`normalize_ipa` applied to the acoustic
transcription), while the `corrected_ipa` field holds the post-rule
sequence. -/
theorem c5_raw_is_normalized (t : String) (cfg : RuleConfig)
    (d : String → String) :
    (run_pipeline t cfg d).raw_ipa = normalize_ipa t ∧
    (run_pipeline t cfg d).corrected_ipa = apply_rules (normalize_ipa t) cfg :=
  ⟨rfl, rfl⟩

end Phonemefix
